import Mathlib

/-!
Shallow embedding of the test-suite engine of `src/testsuite.rs` (crate
`snowchains`): the suite data model and match policy, case materialization,
the ZIP mining engine, the loader/merge orchestrator with its path
compression, and the mutation operations.  Durations are modelled as
milliseconds (`Option Nat`); `f64` error bounds are carried as opaque 64-bit
patterns (`F64`), since no claim computes with them; external collaborators
(serde parsers, the regex engine, the path/command `Template`) are modelled
as inputs: a parse outcome per candidate file, a capture function per regex,
and a record of the expansion inputs per template.
-/

set_option maxHeartbeats 1000000

namespace Snowchains

/-- Carrier for Rust `f64` values stored in a `Match` policy.  The engine
never performs arithmetic on these bounds (it only moves them from the policy
into the expectation), so a 64-bit pattern with decidable equality is a
faithful carrier. -/
structure F64 where
  bits : Nat
  deriving DecidableEq, Repr

/-- `enum Match` of `testsuite.rs` (lines 926-937): the output-comparison
policy of a batch suite. -/
inductive Match where
  | Any : Match
  | Exact : Match
  | Float (relative_error : F64) (absolute_error : F64) : Match
  deriving DecidableEq, Repr

/-- `impl Default for Match` (lines 943-947). -/
def Match.default : Match := Match.Exact

/-- `enum ExpectedStdout` (lines 911-923): the expectation attached to a
materialized batch case.  The field named `example` in the source is called
`ex` here because `example` is a Lean keyword. -/
inductive ExpectedStdout where
  | Any (ex : Option String) : ExpectedStdout
  | Exact (s : String) : ExpectedStdout
  | Float (string : String) (absolute_error : F64) (relative_error : F64) : ExpectedStdout
  deriving DecidableEq, Repr

/-- `struct SimpleSuiteSchemaCase` (lines 637-644): one stored batch case. -/
structure SimpleSuiteSchemaCase where
  input : String
  output : Option String
  deriving DecidableEq, Repr

/-- `struct SimpleSuiteSchemaHead` (lines 624-635). -/
structure SimpleSuiteSchemaHead where
  timelimit : Option Nat
  output_match : Match
  deriving DecidableEq, Repr

/-- `struct SimpleSuite` (lines 616-622): a batch suite. -/
structure SimpleSuite where
  head : SimpleSuiteSchemaHead
  cases : List SimpleSuiteSchemaCase
  deriving DecidableEq, Repr

/-- `struct InteractiveSuite` (lines 758-769). -/
structure InteractiveSuite where
  timelimit : Option Nat
  tester : Option String
  each_args : List (List String)
  deriving DecidableEq, Repr

/-- `enum TestSuite` (lines 491-498). -/
inductive TestSuite where
  | Simple (suite : SimpleSuite) : TestSuite
  | Interactive (suite : InteractiveSuite) : TestSuite
  | Unsubmittable : TestSuite
  deriving DecidableEq, Repr

/-- The error taxonomy relevant to the embedded operations: the variants of
`SuiteFileError` and `LoadConfigError` reachable from `testsuite.rs`, plus a
stand-in for propagated file-read / deserialization / archive failures. -/
inductive SuiteFileError where
  | NoFile (tried : String) : SuiteFileError
  | DifferentTypesOfSuites : SuiteFileError
  | Unsubmittable (target : String) : SuiteFileError
  | SuiteIsNotSimple : SuiteFileError
  | RegexGroupOutOfBounds (index : Nat) : SuiteFileError
  | LanguageNotSpecified : SuiteFileError
  | NoSuchLanguage (name : String) : SuiteFileError
  | Deserialize (path : String) : SuiteFileError
  | ArchiveRead (path : String) : SuiteFileError
  deriving DecidableEq, Repr

/-- A materialized batch case, `struct SimpleCase` (lines 850-856); the
`Arc` wrappers are dropped. -/
structure SimpleCase where
  name : String
  input : String
  expected : ExpectedStdout
  timelimit : Option Nat
  deriving DecidableEq, Repr

/-- `SimpleCase::new` (lines 864-896): derives the expectation from the
match policy and the optionally stored output. -/
def SimpleCase.new (name : String) (timelimit : Option Nat) (input : String)
    (output : Option String) (output_match : Match) : SimpleCase :=
  let expected :=
    match output_match, output with
    | Match.Any, ex => ExpectedStdout.Any ex
    | Match.Exact, none => ExpectedStdout.Any none
    | Match.Float _ _, none => ExpectedStdout.Any none
    | Match.Exact, some output => ExpectedStdout.Exact output
    | Match.Float relative_error absolute_error, some string =>
        ExpectedStdout.Float string absolute_error relative_error
  { name := name, input := input, expected := expected, timelimit := timelimit }

/-- `SimpleSuite::cases_named` (lines 677-691): case `i` is named
`"{filename}[{i}]"` and inherits the suite timelimit and match policy. -/
def SimpleSuite.cases_named (s : SimpleSuite) (filename : String) : List SimpleCase :=
  s.cases.enum.map fun p =>
    SimpleCase.new (filename ++ "[" ++ toString p.1 ++ "]") s.head.timelimit
      p.2.input p.2.output s.head.output_match

/-- `SimpleSuite::append` (lines 750-756): push one schema case. -/
def SimpleSuite.append (s : SimpleSuite) (input : String) (output : Option String) :
    SimpleSuite :=
  { s with cases := s.cases ++ [{ input := input, output := output }] }

/-- `TestSuite::append` (lines 583-591), returning the new suite instead of
mutating in place. -/
def TestSuite.append (ts : TestSuite) (input : String) (output : Option String) :
    Except SuiteFileError TestSuite :=
  match ts with
  | TestSuite.Simple suite => Except.ok (TestSuite.Simple (suite.append input output))
  | _ => Except.error SuiteFileError.SuiteIsNotSimple

/-- `TestSuite::modify_timelimit` (lines 563-581); `path` is the display
string of the suite file path carried into the `Unsubmittable` error. -/
def TestSuite.modify_timelimit (ts : TestSuite) (path : String) (timelimit : Option Nat) :
    Except SuiteFileError TestSuite :=
  match ts with
  | TestSuite.Simple suite =>
      Except.ok (TestSuite.Simple { suite with head := { suite.head with timelimit := timelimit } })
  | TestSuite.Interactive suite =>
      Except.ok (TestSuite.Interactive { suite with timelimit := timelimit })
  | TestSuite.Unsubmittable => Except.error (SuiteFileError.Unsubmittable path)

/-- `TestSuite::modify_match` (lines 593-601). -/
def TestSuite.modify_match (ts : TestSuite) (output_match : Match) :
    Except SuiteFileError TestSuite :=
  match ts with
  | TestSuite.Simple suite =>
      Except.ok (TestSuite.Simple { suite with head := { suite.head with output_match := output_match } })
  | _ => Except.error SuiteFileError.SuiteIsNotSimple

/-- Recursion core of `stripCommonFront`, structural in the first character
sequence (whose length bounds the number of loop iterations). -/
def stripCommonFrontGo : List Char → List (List Char) → List Char × List (List Char)
  | [], rest => ([], [] :: rest)
  | c :: cs, rest =>
    if rest.all (fun ds => ds.head? == some c) then
      let r := stripCommonFrontGo cs (rest.map List.tail)
      (c :: r.1, r.2)
    else ([], (c :: cs) :: rest)

/-- The `while same_nexts(&css, VecDeque::front)` loop of `format_paths`
(lines 184-190): as long as the list of character sequences is non-empty and
all sequences start with the same character, move that character into the
common part.  Returns the accumulated common part and the remainders. -/
def stripCommonFront : List (List Char) → List Char × List (List Char)
  | [] => ([], [])
  | cs :: rest => stripCommonFrontGo cs rest

/-- `format_paths` (lines 177-217): strip the common front, then the common
back (modelled as the common front of the reversed remainders, matching the
`pop_back` loop of lines 191-197), join the non-empty remainders with
`", "` inside one pair of braces, and reattach the common parts. -/
def format_paths (paths : List String) : String :=
  let r1 := stripCommonFront (paths.map String.data)
  let r2 := stripCommonFront (r1.2.map List.reverse)
  let mids := (r2.2.map (fun cs => String.mk cs.reverse)).filter (fun s => !s.isEmpty)
  let braced := if mids.isEmpty then "" else "\x7b" ++ String.intercalate ", " mids ++ "\x7d"
  String.mk r1.1 ++ braced ++ String.mk r2.1.reverse

/-- Rust `str::parse::<usize>` as used by the `Number` sorting (line 448):
an optional leading `+`, then at least one ASCII digit, with the value
required to fit a 64-bit `usize`; anything else is a parse failure. -/
def parseUsize (s : String) : Option Nat :=
  let ds := match s.data with
    | '+' :: rest => rest
    | cs => cs
  if ds.isEmpty then none
  else if ds.all Char.isDigit then
    let v := ds.foldl (fun acc c => 10 * acc + (c.toNat - '0'.toNat)) 0
    if v < 2 ^ 64 then some v else none
  else none

/-- The `ZipEntriesSorting::Number` comparator (lines 447-454): numeric
identifiers order by value, a numeric identifier precedes a non-numeric one,
and two non-numeric identifiers compare equal. -/
def numberCmp (s1 s2 : String) : Ordering :=
  match parseUsize s1, parseUsize s2 with
  | some n1, some n2 => compare n1 n2
  | some _, none => Ordering.lt
  | none, some _ => Ordering.gt
  | none, none => Ordering.eq

/-- The `ZipEntriesSorting::Dictionary` comparator (line 446): Rust
`String::cmp`, i.e. lexicographic order (code-point order agrees with the
UTF-8 byte order Rust compares). -/
def dictCmp (s1 s2 : String) : Ordering := compare s1 s2

/-- Rust `Vec::sort_by` with comparator `cmp`: a stable sort that places `a`
no later than `b` whenever `cmp a b ≠ Greater`.  For a comparator inducing a
total preorder, the output of a stable sort is unique, so the stable
`List.insertionSort` is an exact model of Rust's stable `sort_by`. -/
def sortByCmp {α : Type} (cmp : α → α → Ordering) (l : List α) : List α :=
  List.insertionSort (fun a b => cmp a b ≠ Ordering.gt) l

/-- Sorting keys of a ZIP entry group, `enum ZipEntriesSorting`
(lines 472-477). -/
inductive ZipEntriesSorting where
  | Dictionary : ZipEntriesSorting
  | Number : ZipEntriesSorting
  deriving DecidableEq, Repr

/-- The capture groups of a successful regex match on a member name, indexed
as in `Captures::get` (group 0 is the whole match). -/
structure RegexCaptures where
  group : Nat → Option String

/-- `struct ZipEntry` (lines 479-488).  The regex engine is an external
collaborator, so the `entry` regex is modelled by its `captures` function on
member names. -/
structure ZipEntry where
  entry : String → Option RegexCaptures
  match_group : Nat
  crlf_to_lf : Bool

/-- `struct ZipEntries` (lines 367-374): one entry group of the mining
configuration. -/
structure ZipEntries where
  sort : List ZipEntriesSorting
  input : ZipEntry
  output : ZipEntry

/-- Rust `str::contains("\r\n")` on the decoded character sequence. -/
def containsCrlf : List Char → Bool
  | [] => false
  | '\r' :: '\n' :: _ => true
  | _ :: rest => containsCrlf rest

/-- Rust `str::replace("\r\n", "\n")`: left-to-right, non-overlapping. -/
def replaceCrlf : List Char → List Char
  | [] => []
  | '\r' :: '\n' :: rest => '\n' :: replaceCrlf rest
  | c :: rest => c :: replaceCrlf rest

/-- CRLF normalization applied to a member's content when the rule's
`crlf_to_lf` flag is set (lines 406-410 and 423-427). -/
def normalizeContent (z : ZipEntry) (content : String) : String :=
  if z.crlf_to_lf && containsCrlf content.data then String.mk (replaceCrlf content.data)
  else content

/-- Update of the input half of the `pairs` map for one captured identifier:
`pairs.remove(&name)` followed by re-insertion with the new input content,
keeping any recorded output (lines 411-415).  The association list holds at
most one entry per key, mirroring the `HashMap`. -/
def setIn : List (String × Option String × Option String) → String → String →
    List (String × Option String × Option String)
  | [], name, c => [(name, some c, none)]
  | p :: ps, name, c =>
    if p.1 = name then (name, some c, p.2.2) :: ps else p :: setIn ps name c

/-- Update of the output half of the `pairs` map (lines 428-432). -/
def setOut : List (String × Option String × Option String) → String → String →
    List (String × Option String × Option String)
  | [], name, c => [(name, none, some c)]
  | p :: ps, name, c =>
    if p.1 = name then (name, p.2.1, some c) :: ps else p :: setOut ps name c

/-- Processing of one archive member in `ZipEntries::load` (lines 400-433):
test the member name against the input rule and then the output rule,
recording the (possibly CRLF-normalized) content in the corresponding half
of the map; a configured capture-group index with no matching group fails
with `RegexGroupOutOfBounds`. -/
def scanMember (e : ZipEntries) (pairs : List (String × Option String × Option String))
    (member : String × String) :
    Except SuiteFileError (List (String × Option String × Option String)) := do
  let pairs1 ←
    match e.input.entry member.1 with
    | none => pure pairs
    | some caps =>
      match caps.group e.input.match_group with
      | none => throw (SuiteFileError.RegexGroupOutOfBounds e.input.match_group)
      | some name => pure (setIn pairs name (normalizeContent e.input member.2))
  match e.output.entry member.1 with
  | none => pure pairs1
  | some caps =>
    match caps.group e.output.match_group with
    | none => throw (SuiteFileError.RegexGroupOutOfBounds e.output.match_group)
    | some name => pure (setOut pairs1 name (normalizeContent e.output member.2))

/-- One full stable sort of the case list under a single sorting key
(lines 445-455). -/
def sortOneKey (sorting : ZipEntriesSorting) (cs : List (String × String × String)) :
    List (String × String × String) :=
  match sorting with
  | ZipEntriesSorting.Dictionary => sortByCmp (fun a b => dictCmp a.1 b.1) cs
  | ZipEntriesSorting.Number => sortByCmp (fun a b => numberCmp a.1 b.1) cs

/-- The sorting chain of `ZipEntries::load` (lines 444-456): each key in the
`sort` list re-sorts the whole case list in turn, so the last key dominates
and earlier keys survive only as tie-breaks of the stable sorts. -/
def applySortings (sortings : List ZipEntriesSorting)
    (cases : List (String × String × String)) : List (String × String × String) :=
  sortings.foldl
    (fun cs sorting =>
      match sorting with
      | ZipEntriesSorting.Dictionary => sortByCmp (fun a b => dictCmp a.1 b.1) cs
      | ZipEntriesSorting.Number => sortByCmp (fun a b => numberCmp a.1 b.1) cs)
    cases

/-- `ZipEntries::load` (lines 376-469) for one entry group.  Archive
decompression is external, so the scanned members are given as a list of
(member name, decoded content) in archive order; `filename` is the archive's
file name used in emitted case names.  The Rust `pairs` map is a `HashMap`
whose iteration order is unspecified; the model uses insertion order, which
constrains nothing the claims state (membership, and orders fully determined
by the sort keys). -/
def ZipEntries.load (e : ZipEntries) (members : List (String × String)) (filename : String)
    (timelimit : Option Nat) (output_match : Match) :
    Except SuiteFileError (List SimpleCase) := do
  let pairs ← members.foldlM (scanMember e) []
  let semi := pairs.filterMap fun p =>
    match p with
    | (name, some input, some output) => some (name, input, output)
    | _ => none
  let sorted := applySortings e.sort semi
  pure (sorted.map fun c =>
    SimpleCase.new (filename ++ ":" ++ c.1) timelimit c.2.1 (some c.2.2) output_match)

/-- Last-binding-wins lookup in an insertion-ordered binding list: the model
of the `HashMap` built by `hashmap!` followed by `extend`, where a later
insertion of a key overwrites an earlier one. -/
def envLookup (bindings : List (String × String)) (key : String) : Option String :=
  ((bindings.filter fun p => p.1 == key).getLast?).map fun p => p.2

/-- The entries `extend`ed onto the substitution environment for case `i`
(lines 794-798): `zip_longest` of the enumerated arguments with the keys
`1..=9` yields, at 0-based position `j`: both sides present → key `j+1`
bound to the argument; argument with the keys exhausted (`j ≥ 9`) → key
`j + i` (the case index reused as an offset) bound to the argument; key with
the arguments exhausted → key `j+1` bound to the empty string. -/
def envEntries (args : List String) (i : Nat) : List (String × String) :=
  (List.range (max args.length 9)).map fun j =>
    match args.get? j with
    | some a => if j < 9 then (toString (j + 1), a) else (toString (j + i), a)
    | none => (toString (j + 1), "")

/-- The full substitution environment of case `i` (line 793 + line 794):
`"*"` bound to the space-joined arguments, then the positional entries. -/
def caseEnv (args : List String) (i : Nat) : List (String × String) :=
  ("*", String.intercalate " " args) :: envEntries args i

/-- An expanded tester run command.  `Template::<JudgingCommand>::expand` is
an external collaborator; the model records its inputs: the template's
identity, the inserted string bindings, and the problem id. -/
structure JudgingCommand where
  template : String
  envBindings : List (String × String)
  problem : String
  deriving DecidableEq, Repr

/-- An expanded tester compilation command (no string bindings are inserted
for compilation, line 801). -/
structure CompilationCommand where
  template : String
  problem : String
  deriving DecidableEq, Repr

/-- `struct InteractiveCase` (lines 949-956), `Arc`s dropped. -/
structure InteractiveCase where
  name : String
  timelimit : Option Nat
  tester : JudgingCommand
  tester_compilation : Option CompilationCommand
  deriving DecidableEq, Repr

/-- `InteractiveSuite::cases_named` (lines 780-822).  The tester template
maps are association lists keyed by language; template expansion itself is
external and modelled as always recording its inputs. -/
def InteractiveSuite.cases_named (s : InteractiveSuite)
    (tester_compilations : List (String × String)) (tester_commands : List (String × String))
    (filename : String) (problem : String) :
    Except SuiteFileError (List InteractiveCase) :=
  s.each_args.enum.mapM fun p => do
    let lang ←
      match s.tester with
      | none => throw SuiteFileError.LanguageNotSpecified
      | some lang => pure lang
    let m := caseEnv p.2 p.1
    let tester_compilation := (tester_compilations.lookup lang).map
      fun t => ({ template := t, problem := problem } : CompilationCommand)
    let tester ←
      match tester_commands.lookup lang with
      | none => throw (SuiteFileError.NoSuchLanguage lang)
      | some t => pure ({ template := t, envBindings := m, problem := problem } : JudgingCommand)
    pure { name := filename ++ "[" ++ toString p.1 ++ "]", tester := tester,
           tester_compilation := tester_compilation, timelimit := s.timelimit }

/-- `enum TestCases` (lines 825-828). -/
inductive TestCases where
  | Simple (cases : List SimpleCase) : TestCases
  | Interactive (cases : List InteractiveCase) : TestCases
  deriving DecidableEq, Repr

deriving instance DecidableEq for Except

/-- The outcome of probing one candidate path in `load_merging`: for a
serializable extension, the result of `TestSuite::load` (file read plus the
external serde parse); for the `zip` extension, the result of
`ZipConfig::load` (per group, `ZipEntries.load`). -/
inductive CandidateOutcome where
  | ser (r : Except SuiteFileError TestSuite) : CandidateOutcome
  | zip (r : Except SuiteFileError (List SimpleCase)) : CandidateOutcome
  deriving DecidableEq, Repr

/-- One candidate path probed by `load_merging` (lines 230-245): its display
string, its file name, whether it exists, and what loading it yields.
Candidates appear in the `BTreeSet` iteration order of the configured
extensions (json < toml < yaml < yml < zip), the extension-priority order. -/
structure Candidate where
  display : String
  filename : String
  present : Bool
  outcome : CandidateOutcome
  deriving DecidableEq, Repr

/-- The body of one iteration of the scan loop of `load_merging`
(lines 251-281): what a single existing candidate contributes — batch cases,
interactive cases, and used path displays; a file parsing to `Unsubmittable`
aborts with `SuiteFileError::Unsubmittable(problem)`; load errors propagate;
a ZIP yielding no cases contributes no path. -/
def candStep (tester_compilations tester_commands : List (String × String))
    (problem : String) (c : Candidate) :
    Except SuiteFileError (List SimpleCase × List InteractiveCase × List String) :=
  match c.outcome with
  | CandidateOutcome.ser (Except.error e) => throw e
  | CandidateOutcome.ser (Except.ok (TestSuite.Simple suite)) =>
      pure (suite.cases_named c.filename, [], [c.display])
  | CandidateOutcome.ser (Except.ok (TestSuite.Interactive suite)) => do
      let r ← suite.cases_named tester_compilations tester_commands c.filename problem
      pure (([] : List SimpleCase), r, [c.display])
  | CandidateOutcome.ser (Except.ok TestSuite.Unsubmittable) =>
      throw (SuiteFileError.Unsubmittable problem)
  | CandidateOutcome.zip (Except.error e) => throw e
  | CandidateOutcome.zip (Except.ok zcases) =>
      pure (zcases, [], if zcases.isEmpty then [] else [c.display])

/-- The scan loop of `load_merging` (lines 251-281) over the existing
candidate paths, concatenating the contributions of `candStep` in candidate
order. -/
def collectExisting (tester_compilations tester_commands : List (String × String))
    (problem : String) :
    List Candidate → Except SuiteFileError (List SimpleCase × List InteractiveCase × List String)
  | [] => Except.ok ([], [], [])
  | c :: cs => do
    let (s0, i0, p0) ← candStep tester_compilations tester_commands problem c
    let (s, i, p) ← collectExisting tester_compilations tester_commands problem cs
    pure (s0 ++ s, i0 ++ i, p0 ++ p)

/-- `TestCaseLoader::load_merging` (lines 176-298).  Path-template expansion
is external; its results — one candidate per configured extension — are the
input. -/
def load_merging (tester_compilations tester_commands : List (String × String))
    (candidates : List Candidate) (problem : String) :
    Except SuiteFileError (TestCases × String) := do
  let existing := candidates.filter fun c => c.present
  let (simple_cases, interactive_cases, filepaths) ←
    collectExisting tester_compilations tester_commands problem existing
  let paths_as_text := format_paths filepaths
  if simple_cases.isEmpty && interactive_cases.isEmpty then
    throw (SuiteFileError.NoFile (format_paths (candidates.map Candidate.display)))
  else if interactive_cases.isEmpty then
    pure (TestCases.Simple simple_cases, paths_as_text)
  else if simple_cases.isEmpty then
    pure (TestCases.Interactive interactive_cases, paths_as_text)
  else
    throw SuiteFileError.DifferentTypesOfSuites

/-- The on-disk state visible to the mutation operations: for each path, the
suite the file currently parses to, or `none` when reading or deserializing
it fails.  File I/O and serde are external; a mutation operation is modelled
as a function from disk state to (new disk state, result). -/
def Disk : Type := String → Option TestSuite

/-- The effect of `TestSuite::save` (lines 522-546): the serialized suite
replaces the file at `path`. -/
def Disk.update (d : Disk) (path : String) (suite : TestSuite) : Disk :=
  fun q => if q = path then some suite else d q

/-- `modify_timelimit` (lines 27-36): load, mutate in memory, save; each
`?` aborts before the next step. -/
def modify_timelimit (d : Disk) (path : String) (timelimit : Option Nat) :
    Disk × Except SuiteFileError Unit :=
  match d path with
  | none => (d, Except.error (SuiteFileError.Deserialize path))
  | some suite =>
    match suite.modify_timelimit path timelimit with
    | Except.error e => (d, Except.error e)
    | Except.ok s => (d.update path s, Except.ok ())

/-- `modify_append` (lines 38-48). -/
def modify_append (d : Disk) (path : String) (input : String) (output : Option String) :
    Disk × Except SuiteFileError Unit :=
  match d path with
  | none => (d, Except.error (SuiteFileError.Deserialize path))
  | some suite =>
    match suite.append input output with
    | Except.error e => (d, Except.error e)
    | Except.ok s => (d.update path s, Except.ok ())

/-- `modify_match` (lines 50-59). -/
def modify_match (d : Disk) (path : String) (output_match : Match) :
    Disk × Except SuiteFileError Unit :=
  match d path with
  | none => (d, Except.error (SuiteFileError.Deserialize path))
  | some suite =>
    match suite.modify_match output_match with
    | Except.error e => (d, Except.error e)
    | Except.ok s => (d.update path s, Except.ok ())

/-- The identifier a mining rule captures from a member name: the rule's
regex must match and the configured capture group must exist
(lines 400-405 / 417-422). -/
def capturedId (z : ZipEntry) (memberName : String) : Option String :=
  (z.entry memberName).bind fun caps => caps.group z.match_group

/-- Content is recorded on the input side of the half-maps for `id`. -/
def sideIn (pairs : List (String × Option String × Option String)) (id : String) : Prop :=
  ∃ p ∈ pairs, p.1 = id ∧ p.2.1.isSome

/-- Content is recorded on the output side of the half-maps for `id`. -/
def sideOut (pairs : List (String × Option String × Option String)) (id : String) : Prop :=
  ∃ p ∈ pairs, p.1 = id ∧ p.2.2.isSome

/-- The interactive case built on the success path of `cases_named` for the
enumerated entry `p = (i, args)`, given the resolved tester language and the
found run-command template. -/
def interactiveCaseOf (s : InteractiveSuite) (tester_compilations : List (String × String))
    (lang t filename problem : String) (p : Nat × List String) : InteractiveCase :=
  { name := filename ++ "[" ++ toString p.1 ++ "]",
    tester := { template := t, envBindings := caseEnv p.2 p.1, problem := problem },
    tester_compilation := (tester_compilations.lookup lang).map
      fun tc => ({ template := tc, problem := problem } : CompilationCommand),
    timelimit := s.timelimit }

/-- A concrete two-argument interactive suite used to instantiate
materialization. -/
def sampleInteractiveSuite : InteractiveSuite :=
  { timelimit := some 3000, tester := some "py", each_args := [["x", "y"]] }

/-- A concrete interactive suite whose first case has ten arguments. -/
def tenArgSuite : InteractiveSuite :=
  { timelimit := some 3000, tester := some "py",
    each_args := [["a1", "a2", "a3", "a4", "a5", "a6", "a7", "a8", "a9", "a10"]] }

/-- Concrete captures of a regex with one capturing group: group 0 is the
whole member name, group 1 the identifier. -/
def zipCapsFor (whole idv : String) : RegexCaptures :=
  ⟨fun g => if g = 0 then some whole else if g = 1 then some idv else none⟩

/-- A concrete input rule matching `1.txt`, `9.txt`, `10.txt` with the
number as capture group 1 (the model of a regex like `^(\d+)\.txt$`). -/
def zipSampleIn : ZipEntry :=
  { entry := fun s =>
      if s = "9.txt" then some (zipCapsFor "9.txt" "9")
      else if s = "10.txt" then some (zipCapsFor "10.txt" "10")
      else if s = "1.txt" then some (zipCapsFor "1.txt" "1")
      else none,
    match_group := 1, crlf_to_lf := true }

/-- A concrete output rule matching `1_out.txt`, `9_out.txt`, `10_out.txt`
with the number as capture group 1. -/
def zipSampleOut : ZipEntry :=
  { entry := fun s =>
      if s = "9_out.txt" then some (zipCapsFor "9_out.txt" "9")
      else if s = "10_out.txt" then some (zipCapsFor "10_out.txt" "10")
      else if s = "1_out.txt" then some (zipCapsFor "1_out.txt" "1")
      else none,
    match_group := 1, crlf_to_lf := true }

/-- A concrete entry group sorted by `Number`. -/
def zipSampleEntries : ZipEntries :=
  { sort := [ZipEntriesSorting.Number], input := zipSampleIn, output := zipSampleOut }

/-- The members of a concrete archive holding pairs for identifiers 9, 10
and 1, in that scanning order. -/
def zipSampleMembers : List (String × String) :=
  [("9.txt", "i9\n"), ("9_out.txt", "o9\n"), ("10.txt", "i10\n"),
   ("10_out.txt", "o10\n"), ("1.txt", "i1\n"), ("1_out.txt", "o1\n")]

/-- The cases the concrete archive mines to: identifiers ordered 1, 9, 10
under the `Number` sorting. -/
def zipSampleCases : List SimpleCase :=
  [{ name := "arch.zip:1", input := "i1\n", expected := ExpectedStdout.Exact "o1\n",
     timelimit := none },
   { name := "arch.zip:9", input := "i9\n", expected := ExpectedStdout.Exact "o9\n",
     timelimit := none },
   { name := "arch.zip:10", input := "i10\n", expected := ExpectedStdout.Exact "o10\n",
     timelimit := none }]

/-- A concrete one-case batch suite used to instantiate the loader. -/
def sampleSimpleSuite : SimpleSuite :=
  { head := { timelimit := some 2000, output_match := Match.Exact },
    cases := [{ input := "1\n", output := some "2\n" }] }

/-- A concrete existing candidate parsing to `sampleSimpleSuite`. -/
def sampleCandA : Candidate :=
  { display := "/w/a.yaml", filename := "a.yaml", present := true,
    outcome := CandidateOutcome.ser (Except.ok (TestSuite.Simple sampleSimpleSuite)) }

/-- A concrete candidate path that does not exist. -/
def sampleCandB : Candidate :=
  { display := "/w/a.yml", filename := "a.yml", present := false,
    outcome := CandidateOutcome.ser (Except.error (SuiteFileError.Deserialize "/w/a.yml")) }

/-- A concrete existing candidate parsing to the `Unsubmittable` sentinel. -/
def sampleCandU : Candidate :=
  { display := "/w/a.toml", filename := "a.toml", present := true,
    outcome := CandidateOutcome.ser (Except.ok TestSuite.Unsubmittable) }

/-! Theorems.  Each claim of the specification review is settled by exactly
one theorem below; helper lemmas are shared. -/

/-- Helper: monadic bind on `Except` applied to a success. -/
@[simp] theorem except_bind_ok {ε α β : Type} (a : α) (f : α → Except ε β) :
    (Except.ok a >>= f) = f a := rfl

/-- Helper: monadic bind on `Except` applied to a failure. -/
@[simp] theorem except_bind_error {ε α β : Type} (e : ε) (f : α → Except ε β) :
    ((Except.error e : Except ε α) >>= f) = Except.error e := rfl

/-- Helper: functorial map on `Except` applied to a success. -/
@[simp] theorem except_fmap_ok {ε α β : Type} (a : α) (f : α → β) :
    (f <$> (Except.ok a : Except ε α)) = Except.ok (f a) := rfl

/-- Helper: functorial map on `Except` applied to a failure. -/
@[simp] theorem except_fmap_error {ε α β : Type} (e : ε) (f : α → β) :
    (f <$> (Except.error e : Except ε α)) = Except.error e := rfl

/-- Helper: `Except.map` on a success. -/
@[simp] theorem except_map_ok {ε α β : Type} (a : α) (f : α → β) :
    Except.map f (Except.ok a : Except ε α) = Except.ok (f a) := rfl

/-- Helper: `Except.map` on a failure. -/
@[simp] theorem except_map_error {ε α β : Type} (e : ε) (f : α → β) :
    Except.map f (Except.error e : Except ε α) = Except.error e := rfl

/-- Helper: `throw` on `Except` is `Except.error`. -/
@[simp] theorem except_throw {ε α : Type} (e : ε) :
    (throw e : Except ε α) = Except.error e := rfl

/-- Helper: `pure` on `Except` is `Except.ok`. -/
@[simp] theorem except_pure {ε α : Type} (a : α) :
    (pure a : Except ε α) = Except.ok a := rfl

/-- Helper: the front-stripping loop run on a single character sequence
consumes it entirely. -/
theorem stripCommonFrontGo_single (cs : List Char) :
    stripCommonFrontGo cs [] = (cs, [[]]) := by
  induction cs with
  | nil => rfl
  | cons c cs ih => simp [stripCommonFrontGo, ih]

/-- Helper: a one-element path list compresses to the bare path. -/
theorem format_paths_single (s : String) : format_paths [s] = s := by
  have hmk : String.mk s.data = s := by cases s; rfl
  simp [format_paths, stripCommonFront, stripCommonFrontGo_single, stripCommonFrontGo,
    String.isEmpty_iff, hmk]

/-- C3 counterexample: the code joins the distinguishing middles with the
separator `", "` (comma and space), so `format_paths ["a/1.yaml", "a/2.yaml"]`
is `"a/{1, 2}.yaml"`, not the `"a/{1,2}.yaml"` the claim states, and
`format_paths ["x.yaml", "y.yaml"]` is `"{x, y}.yaml"`, not `"{x,y}.yaml"`. -/
theorem c3_counterexample :
    format_paths ["a/1.yaml", "a/2.yaml"] ≠ "a/{1,2}.yaml" ∧
    format_paths ["x.yaml", "y.yaml"] ≠ "{x,y}.yaml" := by
  constructor <;> decide

/-- C3 (amended): the path-compression function strips the longest common
character prefix and suffix and joins the distinguishing middles with `", "`
inside one pair of braces between them; a single path reduces to the bare
path with no braces, `["a/1.yaml", "a/2.yaml"]` gives `"a/{1, 2}.yaml"`, and
`["x.yaml", "y.yaml"]` gives `"{x, y}.yaml"`. -/
theorem c3_format_paths :
    (∀ s : String, format_paths [s] = s) ∧
    format_paths ["a/1.yaml", "a/2.yaml"] = "a/{1, 2}.yaml" ∧
    format_paths ["x.yaml", "y.yaml"] = "{x, y}.yaml" := by
  refine ⟨format_paths_single, by decide, by decide⟩

/-- C6: the expectation of a materialized batch case is derived from the
match policy and the optionally stored output: `Any` keeps the stored output
as the example (`none` when absent); `Exact` and `Float` degrade to
`Any none` when no output is stored; `Exact` with a stored output keeps it
verbatim; `Float` with a stored output carries the output and the policy's
absolute and relative error bounds. -/
theorem c6_expectation_derivation :
    (∀ (name : String) (tl : Option Nat) (input : String) (ex : Option String),
      (SimpleCase.new name tl input ex Match.Any).expected = ExpectedStdout.Any ex) ∧
    (∀ (name : String) (tl : Option Nat) (input : String),
      (SimpleCase.new name tl input none Match.Exact).expected = ExpectedStdout.Any none) ∧
    (∀ (name : String) (tl : Option Nat) (input : String) (r a : F64),
      (SimpleCase.new name tl input none (Match.Float r a)).expected = ExpectedStdout.Any none) ∧
    (∀ (name : String) (tl : Option Nat) (input output : String),
      (SimpleCase.new name tl input (some output) Match.Exact).expected =
        ExpectedStdout.Exact output) ∧
    (∀ (name : String) (tl : Option Nat) (input output : String) (r a : F64),
      (SimpleCase.new name tl input (some output) (Match.Float r a)).expected =
        ExpectedStdout.Float output a r) := by
  refine ⟨fun name tl input ex => ?_, fun name tl input => rfl, fun name tl input r a => rfl,
    fun name tl input output => rfl, fun name tl input output r a => rfl⟩
  cases ex <;> rfl

/-- C7: `append` fails with `SuiteIsNotSimple` exactly when the suite is not
a batch suite, and on a batch suite it returns the suite whose case list is
the old one with exactly one case `{input, output}` appended at the end
(count up by one, prior cases unchanged and in order, no deduplication). -/
theorem c7_append :
    (∀ (ts : TestSuite) (input : String) (output : Option String),
      ts.append input output = Except.error SuiteFileError.SuiteIsNotSimple ↔
        ¬ ∃ s, ts = TestSuite.Simple s) ∧
    (∀ (s : SimpleSuite) (input : String) (output : Option String),
      (TestSuite.Simple s).append input output =
        Except.ok (TestSuite.Simple
          { head := s.head, cases := s.cases ++ [{ input := input, output := output }] })) := by
  constructor
  · intro ts input output
    cases ts <;> simp [TestSuite.append]
  · intro s input output
    rfl

/-- C9: each mutation operation is an atomic load → mutate → save unit: when
the load fails, or the in-memory mutation fails (`Unsubmittable` for a
timelimit change on the sentinel, `SuiteIsNotSimple` for append or match
change on a non-batch suite), the operation returns that very error and the
disk state is unchanged — the save step is never reached on failure. -/
theorem c9_mutations_atomic :
    ∀ (d : Disk) (path : String),
      (d path = none →
        (∀ tl, modify_timelimit d path tl =
          (d, Except.error (SuiteFileError.Deserialize path))) ∧
        (∀ input output, modify_append d path input output =
          (d, Except.error (SuiteFileError.Deserialize path))) ∧
        (∀ om, modify_match d path om =
          (d, Except.error (SuiteFileError.Deserialize path)))) ∧
      (∀ suite, d path = some suite →
        (∀ tl e, suite.modify_timelimit path tl = Except.error e →
          modify_timelimit d path tl = (d, Except.error e)) ∧
        (∀ input output e, suite.append input output = Except.error e →
          modify_append d path input output = (d, Except.error e)) ∧
        (∀ om e, suite.modify_match om = Except.error e →
          modify_match d path om = (d, Except.error e))) := by
  intro d path
  constructor
  · intro hnone
    refine ⟨fun tl => ?_, fun input output => ?_, fun om => ?_⟩ <;>
      simp [modify_timelimit, modify_append, modify_match, hnone]
  · intro suite hsome
    refine ⟨fun tl e he => ?_, fun input output e he => ?_, fun om e he => ?_⟩ <;>
      simp [modify_timelimit, modify_append, modify_match, hsome, he]

/-- Witness for C9 at a concrete disk: a disk whose only file parses to the
`Unsubmittable` sentinel; appending fails with `SuiteIsNotSimple` and the
disk is unchanged. -/
theorem c9_mutations_atomic_witness :
    TestSuite.Unsubmittable.append "1\n" (some "2\n") =
      Except.error SuiteFileError.SuiteIsNotSimple ∧
    modify_append (fun _ => some TestSuite.Unsubmittable) "/w/a.yaml" "1\n" (some "2\n") =
      ((fun _ => some TestSuite.Unsubmittable), Except.error SuiteFileError.SuiteIsNotSimple) := by
  refine ⟨rfl, ?_⟩
  exact ((c9_mutations_atomic (fun _ => some TestSuite.Unsubmittable) "/w/a.yaml").2
    TestSuite.Unsubmittable rfl).2.1 "1\n" (some "2\n") SuiteFileError.SuiteIsNotSimple rfl

/-- Helper: the scan loop distributes over list append — scanning
`xs ++ ys` concatenates the contributions of `xs` and of `ys`, failing as
soon as either fails. -/
theorem collectExisting_append (tcs tcm : List (String × String)) (problem : String)
    (xs ys : List Candidate) :
    collectExisting tcs tcm problem (xs ++ ys) =
      (collectExisting tcs tcm problem xs).bind fun t =>
        (collectExisting tcs tcm problem ys).map fun u =>
          (t.1 ++ u.1, t.2.1 ++ u.2.1, t.2.2 ++ u.2.2) := by
  induction xs with
  | nil =>
    cases h : collectExisting tcs tcm problem ys with
    | error e => simp [collectExisting, h, Except.bind, Except.map]
    | ok u => simp [collectExisting, h, Except.bind, Except.map]
  | cons c cs ih =>
    cases hc : candStep tcs tcm problem c with
    | error e => simp [collectExisting, hc, Except.bind]
    | ok t0 =>
      obtain ⟨s0, i0, p0⟩ := t0
      cases hcs : collectExisting tcs tcm problem cs with
      | error e =>
        simp [collectExisting, hc, hcs, ih, Except.bind]
      | ok t1 =>
        obtain ⟨s1, i1, p1⟩ := t1
        cases hys : collectExisting tcs tcm problem ys with
        | error e => simp [collectExisting, hc, hcs, hys, ih, Except.bind, Except.map]
        | ok u =>
          obtain ⟨s2, i2, p2⟩ := u
          simp [collectExisting, hc, hcs, hys, ih, Except.bind, Except.map]

/-- C2: once the scan over the existing candidates has succeeded with batch
cases `s`, interactive cases `i` and used paths `p`, `load_merging` fails
with `DifferentTypesOfSuites` exactly when both `s` and `i` are non-empty,
fails with `NoFile` carrying the compressed display of every candidate path
(existing or not) exactly when both are empty, and otherwise returns the
unique non-empty case list with the compressed display of the used paths. -/
theorem c2_load_merging_decision :
    ∀ (tcs tcm : List (String × String)) (cands : List Candidate) (problem : String)
      (s : List SimpleCase) (i : List InteractiveCase) (p : List String),
      collectExisting tcs tcm problem (cands.filter fun c => c.present) = Except.ok (s, i, p) →
      ((load_merging tcs tcm cands problem =
          Except.error SuiteFileError.DifferentTypesOfSuites) ↔ (s ≠ [] ∧ i ≠ [])) ∧
      ((load_merging tcs tcm cands problem =
          Except.error (SuiteFileError.NoFile (format_paths (cands.map Candidate.display)))) ↔
        (s = [] ∧ i = [])) ∧
      (s ≠ [] → i = [] →
        load_merging tcs tcm cands problem = Except.ok (TestCases.Simple s, format_paths p)) ∧
      (i ≠ [] → s = [] →
        load_merging tcs tcm cands problem = Except.ok (TestCases.Interactive i, format_paths p)) := by
  intro tcs tcm cands problem s i p h
  rcases s with _ | ⟨s0, srest⟩ <;> rcases i with _ | ⟨i0, irest⟩ <;>
    simp [load_merging, h, Except.bind]

/-- Witness for C2: one existing batch candidate and one absent candidate;
the scan succeeds, and the loader returns the batch cases with the used
path, per the theorem. -/
theorem c2_load_merging_decision_witness :
    collectExisting [] [] "p" ([sampleCandA, sampleCandB].filter fun c => c.present) =
      Except.ok (sampleSimpleSuite.cases_named "a.yaml", [], ["/w/a.yaml"]) ∧
    (load_merging [] [] [sampleCandA, sampleCandB] "p" =
      Except.ok (TestCases.Simple (sampleSimpleSuite.cases_named "a.yaml"),
        format_paths ["/w/a.yaml"])) := by
  have h : collectExisting [] [] "p" ([sampleCandA, sampleCandB].filter fun c => c.present) =
      Except.ok (sampleSimpleSuite.cases_named "a.yaml", [], ["/w/a.yaml"]) := by rfl
  refine ⟨h, ?_⟩
  exact (c2_load_merging_decision [] [] [sampleCandA, sampleCandB] "p"
    (sampleSimpleSuite.cases_named "a.yaml") [] ["/w/a.yaml"] h).2.2.1 (by decide) rfl

/-- C10: if the existing candidates, in probe order, are `pre ++ u :: rest`
where every candidate of `pre` loads successfully and `u` parses to the
`Unsubmittable` sentinel, then `load_merging` fails with
`Unsubmittable(problem)` the moment `u` is reached — regardless of the batch
or interactive cases `pre` contributed, and without reaching the three-way
Batch/Interactive/NoFile decision. -/
theorem c10_unsubmittable_aborts :
    ∀ (tcs tcm : List (String × String)) (cands : List Candidate) (problem : String)
      (pre rest : List Candidate) (u : Candidate)
      (s : List SimpleCase) (i : List InteractiveCase) (p : List String),
      cands.filter (fun c => c.present) = pre ++ u :: rest →
      u.outcome = CandidateOutcome.ser (Except.ok TestSuite.Unsubmittable) →
      collectExisting tcs tcm problem pre = Except.ok (s, i, p) →
      load_merging tcs tcm cands problem =
        Except.error (SuiteFileError.Unsubmittable problem) := by
  intro tcs tcm cands problem pre rest u s i p hfilter hout hpre
  have hu : collectExisting tcs tcm problem (u :: rest) =
      Except.error (SuiteFileError.Unsubmittable problem) := by
    simp [collectExisting, candStep, hout, Except.bind]
  have hall : collectExisting tcs tcm problem (cands.filter fun c => c.present) =
      Except.error (SuiteFileError.Unsubmittable problem) := by
    rw [hfilter, collectExisting_append, hpre, hu]
    rfl
  simp [load_merging, hall, Except.bind]

/-- Witness for C10: a batch file contributes a case, then an unsubmittable
file is reached; the loader fails with `Unsubmittable`. -/
theorem c10_unsubmittable_aborts_witness :
    ([sampleCandA, sampleCandU].filter fun c => c.present) = [sampleCandA] ++ sampleCandU :: [] ∧
    sampleCandU.outcome = CandidateOutcome.ser (Except.ok TestSuite.Unsubmittable) ∧
    collectExisting [] [] "p" [sampleCandA] =
      Except.ok (sampleSimpleSuite.cases_named "a.yaml", [], ["/w/a.yaml"]) ∧
    load_merging [] [] [sampleCandA, sampleCandU] "p" =
      Except.error (SuiteFileError.Unsubmittable "p") := by
  refine ⟨rfl, rfl, rfl, ?_⟩
  exact c10_unsubmittable_aborts [] [] [sampleCandA, sampleCandU] "p"
    [sampleCandA] [] sampleCandU (sampleSimpleSuite.cases_named "a.yaml") [] ["/w/a.yaml"]
    rfl rfl rfl

/-- Helper: the accumulator loop of `mapM` with a throw-free body. -/
theorem list_mapM_loop_ok {ε A B : Type} (f : A → B) (l : List A) (acc : List B) :
    List.mapM.loop (fun a => (Except.ok (f a) : Except ε B)) l acc =
      Except.ok (acc.reverse ++ l.map f) := by
  induction l generalizing acc with
  | nil => simp [List.mapM.loop]
  | cons a l ih => simp [List.mapM.loop, ih]

/-- Helper: `mapM` of a throw-free body is `ok` of the `map`. -/
theorem list_mapM_ok {ε A B : Type} (f : A → B) (l : List A) :
    List.mapM (fun a => (Except.ok (f a) : Except ε B)) l = Except.ok (l.map f) := by
  simpa using list_mapM_loop_ok f l []

/-- Helper: with a declared tester language and a run-command template found
for it, `cases_named` succeeds and produces exactly one case per argument
list, in order. -/
theorem cases_named_ok (s : InteractiveSuite) (tcs tcm : List (String × String))
    (filename problem lang t : String)
    (htester : s.tester = some lang) (hlookup : tcm.lookup lang = some t) :
    s.cases_named tcs tcm filename problem =
      Except.ok (s.each_args.enum.map (interactiveCaseOf s tcs lang t filename problem)) := by
  unfold InteractiveSuite.cases_named
  rw [htester]
  simp only [except_pure, except_bind_ok, hlookup]
  exact list_mapM_ok _ _

/-- Helper: when the argument list has at most nine entries, every
positional environment entry is keyed `j+1` and holds the `j`-th argument or
the empty string. -/
theorem envEntries_of_le (args : List String) (i : Nat) (hlen : args.length ≤ 9) :
    envEntries args i =
      (List.range 9).map fun j => (toString (j + 1), (args.get? j).getD "") := by
  unfold envEntries
  rw [Nat.max_eq_right hlen]
  apply List.map_congr_left
  intro j hj
  have hj9 : j < 9 := List.mem_range.mp hj
  cases hget : args.get? j with
  | none => simp
  | some a => simp [hj9]

/-- Helper: the `"*"` binding of the case environment, for at most nine
arguments. -/
theorem envLookup_caseEnv_star (args : List String) (i : Nat) (hlen : args.length ≤ 9) :
    envLookup (caseEnv args i) "*" = some (String.intercalate " " args) := by
  unfold caseEnv
  rw [envEntries_of_le args i hlen]
  rfl

/-- Helper: the positional bindings `"1"` to `"9"` of the case environment,
for at most nine arguments. -/
theorem envLookup_caseEnv_pos (args : List String) (i : Nat) (hlen : args.length ≤ 9) :
    ∀ k, 1 ≤ k → k ≤ 9 →
      envLookup (caseEnv args i) (toString k) = some ((args.get? (k - 1)).getD "") := by
  intro k hk1 hk9
  unfold caseEnv
  rw [envEntries_of_le args i hlen]
  interval_cases k <;> rfl

/-- C8 (amended): materializing an interactive suite with at least one case
fails with `LanguageNotSpecified` when no tester language is declared and
with `NoSuchLanguage(lang)` when the tester-command map lacks the declared
language; otherwise each produced case `i` is named `"{filename}[{i}]"`,
carries the suite timelimit, and — provided its argument list has at most
nine arguments — its tester command's environment binds `"*"` to the
space-joined arguments and the keys `"1"` to `"9"` to the first nine
arguments in order, the keys of missing positions bound to the empty string.
(With ten or more arguments the overflow entries are keyed by the 0-based
argument index plus the case index, which for the first case rebinds `"9"`;
see the counterexample.) -/
theorem c8_interactive_materialization :
    ∀ (s : InteractiveSuite) (tcs tcm : List (String × String)) (filename problem : String),
      (s.each_args ≠ [] → s.tester = none →
        s.cases_named tcs tcm filename problem =
          Except.error SuiteFileError.LanguageNotSpecified) ∧
      (∀ lang, s.each_args ≠ [] → s.tester = some lang → tcm.lookup lang = none →
        s.cases_named tcs tcm filename problem =
          Except.error (SuiteFileError.NoSuchLanguage lang)) ∧
      (∀ lang t, s.tester = some lang → tcm.lookup lang = some t →
        ∃ cases, s.cases_named tcs tcm filename problem = Except.ok cases ∧
          cases.length = s.each_args.length ∧
          ∀ (i : Nat) (args : List String), s.each_args.get? i = some args →
            ∃ c, cases.get? i = some c ∧
              c.name = filename ++ "[" ++ toString i ++ "]" ∧
              c.timelimit = s.timelimit ∧
              (args.length ≤ 9 →
                envLookup c.tester.envBindings "*" = some (String.intercalate " " args) ∧
                ∀ k, 1 ≤ k → k ≤ 9 →
                  envLookup c.tester.envBindings (toString k) =
                    some ((args.get? (k - 1)).getD ""))) := by
  intro s tcs tcm filename problem
  refine ⟨?_, ?_, ?_⟩
  · intro hne htester
    rcases hargs : s.each_args with _ | ⟨a, l⟩
    · exact absurd hargs hne
    · unfold InteractiveSuite.cases_named
      rw [htester, hargs]
      rfl
  · intro lang hne htester hlookup
    rcases hargs : s.each_args with _ | ⟨a, l⟩
    · exact absurd hargs hne
    · unfold InteractiveSuite.cases_named
      rw [htester, hargs]
      simp only [except_pure, except_bind_ok, hlookup]
      rfl
  · intro lang t htester hlookup
    refine ⟨_, cases_named_ok s tcs tcm filename problem lang t htester hlookup, ?_, ?_⟩
    · simp [List.length_map, List.enum_length]
    · intro i args hget
      refine ⟨interactiveCaseOf s tcs lang t filename problem (i, args), ?_, rfl, rfl, ?_⟩
      · rw [List.get?_map, List.get?_enum, hget]
        rfl
      · intro hlen
        exact ⟨envLookup_caseEnv_star args i hlen, envLookup_caseEnv_pos args i hlen⟩

/-- C8 counterexample: for the first case (index 0) of a suite whose
argument list has ten arguments, the environment binds the key `"9"` to the
tenth argument `"a10"`, not to the ninth argument `"a9"` required by the
claim's "positional keys 1..9 bound to the first nine arguments in order". -/
theorem c8_counterexample :
    (tenArgSuite.cases_named [] [("py", "runT")] "f.yml" "p").map
        (fun cs => cs.map fun c => envLookup c.tester.envBindings "9") =
      Except.ok [some "a10"] ∧
    some "a10" ≠
      some (((["a1", "a2", "a3", "a4", "a5", "a6", "a7", "a8", "a9", "a10"].get? 8)).getD "") := by
  constructor <;> decide

/-- Witness for C8 at a concrete suite: a declared `py` tester with a found
run template and a two-argument case; the theorem yields the case with its
name, timelimit and environment bindings. -/
theorem c8_interactive_materialization_witness :
    sampleInteractiveSuite.tester = some "py" ∧
    List.lookup "py" [("py", "runT")] = some "runT" ∧
    (∃ cases,
      sampleInteractiveSuite.cases_named [] [("py", "runT")] "f.yml" "p" = Except.ok cases ∧
      cases.length = sampleInteractiveSuite.each_args.length ∧
      ∀ (i : Nat) (args : List String), sampleInteractiveSuite.each_args.get? i = some args →
        ∃ c, cases.get? i = some c ∧
          c.name = "f.yml" ++ "[" ++ toString i ++ "]" ∧
          c.timelimit = sampleInteractiveSuite.timelimit ∧
          (args.length ≤ 9 →
            envLookup c.tester.envBindings "*" = some (String.intercalate " " args) ∧
            ∀ k, 1 ≤ k → k ≤ 9 →
              envLookup c.tester.envBindings (toString k) =
                some ((args.get? (k - 1)).getD ""))) := by
  refine ⟨rfl, rfl, ?_⟩
  exact (c8_interactive_materialization sampleInteractiveSuite [] [("py", "runT")]
    "f.yml" "p").2.2 "py" "runT" rfl rfl

/-- Helper: unfolding of `setIn` on a cons cell. -/
theorem setIn_cons (p : String × Option String × Option String)
    (ps : List (String × Option String × Option String)) (n c : String) :
    setIn (p :: ps) n c =
      if p.1 = n then (n, some c, p.2.2) :: ps else p :: setIn ps n c := rfl

/-- Helper: unfolding of `setOut` on a cons cell. -/
theorem setOut_cons (p : String × Option String × Option String)
    (ps : List (String × Option String × Option String)) (n c : String) :
    setOut (p :: ps) n c =
      if p.1 = n then (n, p.2.1, some c) :: ps else p :: setOut ps n c := rfl

/-- Helper: unfolding of `sideIn` on a cons cell. -/
theorem sideIn_cons (p : String × Option String × Option String)
    (ps : List (String × Option String × Option String)) (id : String) :
    sideIn (p :: ps) id ↔ ((p.1 = id ∧ p.2.1.isSome) ∨ sideIn ps id) := by
  constructor
  · rintro ⟨q, hq, hk, hs⟩
    rcases List.mem_cons.mp hq with h | h
    · subst h; exact Or.inl ⟨hk, hs⟩
    · exact Or.inr ⟨q, h, hk, hs⟩
  · rintro (⟨hk, hs⟩ | ⟨q, hq, hk, hs⟩)
    · exact ⟨p, List.mem_cons_self p ps, hk, hs⟩
    · exact ⟨q, List.mem_cons_of_mem p hq, hk, hs⟩

/-- Helper: unfolding of `sideOut` on a cons cell. -/
theorem sideOut_cons (p : String × Option String × Option String)
    (ps : List (String × Option String × Option String)) (id : String) :
    sideOut (p :: ps) id ↔ ((p.1 = id ∧ p.2.2.isSome) ∨ sideOut ps id) := by
  constructor
  · rintro ⟨q, hq, hk, hs⟩
    rcases List.mem_cons.mp hq with h | h
    · subst h; exact Or.inl ⟨hk, hs⟩
    · exact Or.inr ⟨q, h, hk, hs⟩
  · rintro (⟨hk, hs⟩ | ⟨q, hq, hk, hs⟩)
    · exact ⟨p, List.mem_cons_self p ps, hk, hs⟩
    · exact ⟨q, List.mem_cons_of_mem p hq, hk, hs⟩

/-- Helper: `sideIn` of the empty map never holds. -/
theorem sideIn_nil (id : String) : ¬ sideIn [] id := by
  rintro ⟨q, hq, _, _⟩
  exact absurd hq (List.not_mem_nil q)

/-- Helper: `sideOut` of the empty map never holds. -/
theorem sideOut_nil (id : String) : ¬ sideOut [] id := by
  rintro ⟨q, hq, _, _⟩
  exact absurd hq (List.not_mem_nil q)

/-- Helper: recording input content for `n` makes `n`'s input side present
and touches no other identifier's input side. -/
theorem sideIn_setIn (pairs : List (String × Option String × Option String))
    (n c : String) (id : String) :
    sideIn (setIn pairs n c) id ↔ (id = n ∨ sideIn pairs id) := by
  induction pairs with
  | nil =>
    rw [show setIn [] n c = [(n, some c, none)] from rfl, sideIn_cons]
    simp [sideIn_nil, eq_comm]
  | cons p ps ih =>
    by_cases hpn : p.1 = n
    · rw [setIn_cons, if_pos hpn, sideIn_cons, sideIn_cons]
      by_cases hid : id = n
      · simp [hid, hpn]
      · have hn : ¬ n = id := fun h => hid h.symm
        have hp : ¬ p.1 = id := hpn ▸ hn
        simp [hn, hp, hid]
    · rw [setIn_cons, if_neg hpn, sideIn_cons, sideIn_cons, ih]
      tauto

/-- Helper: recording output content for `n` leaves every input side
unchanged. -/
theorem sideIn_setOut (pairs : List (String × Option String × Option String))
    (n c : String) (id : String) :
    sideIn (setOut pairs n c) id ↔ sideIn pairs id := by
  induction pairs with
  | nil =>
    rw [show setOut [] n c = [(n, none, some c)] from rfl, sideIn_cons]
    simp [sideIn_nil]
  | cons p ps ih =>
    by_cases hpn : p.1 = n
    · rw [setOut_cons, if_pos hpn, sideIn_cons, sideIn_cons, hpn]
    · rw [setOut_cons, if_neg hpn, sideIn_cons, sideIn_cons, ih]

/-- Helper: recording output content for `n` makes `n`'s output side present
and touches no other identifier's output side. -/
theorem sideOut_setOut (pairs : List (String × Option String × Option String))
    (n c : String) (id : String) :
    sideOut (setOut pairs n c) id ↔ (id = n ∨ sideOut pairs id) := by
  induction pairs with
  | nil =>
    rw [show setOut [] n c = [(n, none, some c)] from rfl, sideOut_cons]
    simp [sideOut_nil, eq_comm]
  | cons p ps ih =>
    by_cases hpn : p.1 = n
    · rw [setOut_cons, if_pos hpn, sideOut_cons, sideOut_cons]
      by_cases hid : id = n
      · simp [hid, hpn]
      · have hn : ¬ n = id := fun h => hid h.symm
        have hp : ¬ p.1 = id := hpn ▸ hn
        simp [hn, hp, hid]
    · rw [setOut_cons, if_neg hpn, sideOut_cons, sideOut_cons, ih]
      tauto

/-- Helper: recording input content for `n` leaves every output side
unchanged. -/
theorem sideOut_setIn (pairs : List (String × Option String × Option String))
    (n c : String) (id : String) :
    sideOut (setIn pairs n c) id ↔ sideOut pairs id := by
  induction pairs with
  | nil =>
    rw [show setIn [] n c = [(n, some c, none)] from rfl, sideOut_cons]
    simp [sideOut_nil]
  | cons p ps ih =>
    by_cases hpn : p.1 = n
    · rw [setIn_cons, if_pos hpn, sideOut_cons, sideOut_cons, hpn]
    · rw [setIn_cons, if_neg hpn, sideOut_cons, sideOut_cons, ih]

/-- Helper: processing one member records exactly the identifiers its name's
captures designate — the input side gains the input-rule capture, the output
side the output-rule capture, everything else is untouched. -/
theorem scanMember_sides (e : ZipEntries)
    (pairs pairs' : List (String × Option String × Option String)) (m : String × String)
    (h : scanMember e pairs m = Except.ok pairs') (id : String) :
    (sideIn pairs' id ↔ (capturedId e.input m.1 = some id ∨ sideIn pairs id)) ∧
    (sideOut pairs' id ↔ (capturedId e.output m.1 = some id ∨ sideOut pairs id)) := by
  unfold scanMember at h
  rcases hin : e.input.entry m.1 with _ | caps
  · simp only [hin, except_pure, except_bind_ok] at h
    rcases hout : e.output.entry m.1 with _ | caps2
    · simp only [hout, except_pure] at h
      injection h with h
      subst h
      simp [capturedId, hin, hout]
    · simp only [hout] at h
      rcases hg : caps2.group e.output.match_group with _ | nm
      · simp only [hg, except_throw] at h
        simp at h
      · simp only [hg, except_pure] at h
        injection h with h
        subst h
        refine ⟨?_, ?_⟩
        · rw [sideIn_setOut]
          simp [capturedId, hin]
        · rw [sideOut_setOut]
          simp [capturedId, hin, hout, hg, eq_comm]
  · simp only [hin] at h
    rcases hgin : caps.group e.input.match_group with _ | nmi
    · simp only [hgin, except_throw, except_bind_error] at h
      simp at h
    · simp only [hgin, except_pure, except_bind_ok] at h
      rcases hout : e.output.entry m.1 with _ | caps2
      · simp only [hout, except_pure] at h
        injection h with h
        subst h
        refine ⟨?_, ?_⟩
        · rw [sideIn_setIn]
          simp [capturedId, hin, hgin, eq_comm]
        · rw [sideOut_setIn]
          simp [capturedId, hout]
      · simp only [hout] at h
        rcases hg : caps2.group e.output.match_group with _ | nm
        · simp only [hg, except_throw] at h
          simp at h
        · simp only [hg, except_pure] at h
          injection h with h
          subst h
          refine ⟨?_, ?_⟩
          · rw [sideIn_setOut, sideIn_setIn]
            simp [capturedId, hin, hgin, eq_comm]
          · rw [sideOut_setOut, sideOut_setIn]
            simp [capturedId, hout, hg, eq_comm]

/-- Helper: the keys of the half-maps after a `setIn` update. -/
theorem keys_setIn (pairs : List (String × Option String × Option String)) (n c : String) :
    (setIn pairs n c).map Prod.fst =
      if n ∈ pairs.map Prod.fst then pairs.map Prod.fst else pairs.map Prod.fst ++ [n] := by
  induction pairs with
  | nil => simp [setIn]
  | cons p ps ih =>
    by_cases hpn : p.1 = n
    · rw [setIn_cons, if_pos hpn]
      simp [hpn]
    · rw [setIn_cons, if_neg hpn]
      have hnp : ¬ n = p.1 := fun hcontra => hpn hcontra.symm
      by_cases hmem : n ∈ ps.map Prod.fst <;>
        simp [ih, hmem, hnp]

/-- Helper: the keys of the half-maps after a `setOut` update. -/
theorem keys_setOut (pairs : List (String × Option String × Option String)) (n c : String) :
    (setOut pairs n c).map Prod.fst =
      if n ∈ pairs.map Prod.fst then pairs.map Prod.fst else pairs.map Prod.fst ++ [n] := by
  induction pairs with
  | nil => simp [setOut]
  | cons p ps ih =>
    by_cases hpn : p.1 = n
    · rw [setOut_cons, if_pos hpn]
      simp [hpn]
    · rw [setOut_cons, if_neg hpn]
      have hnp : ¬ n = p.1 := fun hcontra => hpn hcontra.symm
      by_cases hmem : n ∈ ps.map Prod.fst <;>
        simp [ih, hmem, hnp]

/-- Helper: `setIn` keeps the keys free of duplicates. -/
theorem nodup_setIn (pairs : List (String × Option String × Option String)) (n c : String)
    (h : (pairs.map Prod.fst).Nodup) : ((setIn pairs n c).map Prod.fst).Nodup := by
  rw [keys_setIn]
  by_cases hmem : n ∈ pairs.map Prod.fst <;> simp [hmem, h, List.nodup_append]

/-- Helper: `setOut` keeps the keys free of duplicates. -/
theorem nodup_setOut (pairs : List (String × Option String × Option String)) (n c : String)
    (h : (pairs.map Prod.fst).Nodup) : ((setOut pairs n c).map Prod.fst).Nodup := by
  rw [keys_setOut]
  by_cases hmem : n ∈ pairs.map Prod.fst <;> simp [hmem, h, List.nodup_append]

/-- Helper: processing one member keeps the keys free of duplicates. -/
theorem scanMember_nodup (e : ZipEntries)
    (pairs pairs' : List (String × Option String × Option String)) (m : String × String)
    (h : scanMember e pairs m = Except.ok pairs')
    (hnd : (pairs.map Prod.fst).Nodup) : (pairs'.map Prod.fst).Nodup := by
  unfold scanMember at h
  rcases hin : e.input.entry m.1 with _ | caps
  · simp only [hin, except_pure, except_bind_ok] at h
    rcases hout : e.output.entry m.1 with _ | caps2
    · simp only [hout, except_pure] at h
      injection h with h
      subst h
      exact hnd
    · simp only [hout] at h
      rcases hg : caps2.group e.output.match_group with _ | nm
      · simp only [hg, except_throw] at h
        simp at h
      · simp only [hg, except_pure] at h
        injection h with h
        subst h
        exact nodup_setOut _ _ _ hnd
  · simp only [hin] at h
    rcases hgin : caps.group e.input.match_group with _ | nmi
    · simp only [hgin, except_throw, except_bind_error] at h
      simp at h
    · simp only [hgin, except_pure, except_bind_ok] at h
      rcases hout : e.output.entry m.1 with _ | caps2
      · simp only [hout, except_pure] at h
        injection h with h
        subst h
        exact nodup_setIn _ _ _ hnd
      · simp only [hout] at h
        rcases hg : caps2.group e.output.match_group with _ | nm
        · simp only [hg, except_throw] at h
          simp at h
        · simp only [hg, except_pure] at h
          injection h with h
          subst h
          exact nodup_setOut _ _ _ (nodup_setIn _ _ _ hnd)

/-- Helper: after scanning all members, an identifier's input (resp. output)
side is recorded if and only if it was recorded initially or some member's
name captures it under the input (resp. output) rule, and the keys stay free
of duplicates. -/
theorem scan_fold_sides (e : ZipEntries) :
    ∀ (ms : List (String × String)) (pairs0 pairsF : List (String × Option String × Option String)),
      List.foldlM (scanMember e) pairs0 ms = Except.ok pairsF →
      (pairs0.map Prod.fst).Nodup →
      (pairsF.map Prod.fst).Nodup ∧
      ∀ id,
        (sideIn pairsF id ↔ (sideIn pairs0 id ∨ ∃ m ∈ ms, capturedId e.input m.1 = some id)) ∧
        (sideOut pairsF id ↔ (sideOut pairs0 id ∨ ∃ m ∈ ms, capturedId e.output m.1 = some id)) := by
  intro ms
  induction ms with
  | nil =>
    intro pairs0 pairsF h hnd
    simp only [List.foldlM_nil] at h
    injection h with h
    subst h
    simp [hnd]
  | cons m ms ih =>
    intro pairs0 pairsF h hnd
    rw [List.foldlM_cons] at h
    rcases hstep : scanMember e pairs0 m with e' | pairs1
    · rw [hstep] at h
      simp at h
    · rw [hstep, except_bind_ok] at h
      obtain ⟨hnd', hsides⟩ := ih pairs1 pairsF h (scanMember_nodup e pairs0 pairs1 m hstep hnd)
      refine ⟨hnd', fun id => ?_⟩
      obtain ⟨hstepIn, hstepOut⟩ := scanMember_sides e pairs0 pairs1 m hstep id
      obtain ⟨hIn, hOut⟩ := hsides id
      constructor
      · rw [hIn, hstepIn]
        simp only [List.mem_cons]
        constructor
        · rintro ((hc | hs) | ⟨m', hm', hc⟩)
          · exact Or.inr ⟨m, Or.inl rfl, hc⟩
          · exact Or.inl hs
          · exact Or.inr ⟨m', Or.inr hm', hc⟩
        · rintro (hs | ⟨m', hm' | hm', hc⟩)
          · exact Or.inl (Or.inr hs)
          · subst hm'; exact Or.inl (Or.inl hc)
          · exact Or.inr ⟨m', hm', hc⟩
      · rw [hOut, hstepOut]
        simp only [List.mem_cons]
        constructor
        · rintro ((hc | hs) | ⟨m', hm', hc⟩)
          · exact Or.inr ⟨m, Or.inl rfl, hc⟩
          · exact Or.inl hs
          · exact Or.inr ⟨m', Or.inr hm', hc⟩
        · rintro (hs | ⟨m', hm' | hm', hc⟩)
          · exact Or.inl (Or.inr hs)
          · subst hm'; exact Or.inl (Or.inl hc)
          · exact Or.inr ⟨m', hm', hc⟩

/-- Helper: in a map with duplicate-free keys, equal keys mean equal
entries. -/
theorem unique_key (pairs : List (String × Option String × Option String))
    (hnd : (pairs.map Prod.fst).Nodup) :
    ∀ p ∈ pairs, ∀ q ∈ pairs, p.1 = q.1 → p = q := by
  induction pairs with
  | nil =>
    intro p hp
    exact absurd hp (List.not_mem_nil p)
  | cons r rs ih =>
    simp only [List.map_cons, List.nodup_cons] at hnd
    obtain ⟨hr, hnd'⟩ := hnd
    intro p hp q hq hk
    rcases List.mem_cons.mp hp with hp' | hp' <;> rcases List.mem_cons.mp hq with hq' | hq'
    · rw [hp', hq']
    · subst hp'
      have hqm : q.1 ∈ rs.map Prod.fst := List.mem_map_of_mem Prod.fst hq'
      rw [← hk] at hqm
      exact absurd hqm hr
    · subst hq'
      have hpm : p.1 ∈ rs.map Prod.fst := List.mem_map_of_mem Prod.fst hp'
      rw [hk] at hpm
      exact absurd hpm hr
    · exact ih hnd' p hp' q hq' hk

/-- Helper: with duplicate-free keys, both sides are recorded for `id`
exactly when a single entry holds content on both sides under key `id`. -/
theorem both_entry (pairs : List (String × Option String × Option String))
    (hnd : (pairs.map Prod.fst).Nodup) (id : String) :
    (sideIn pairs id ∧ sideOut pairs id) ↔
      ∃ p ∈ pairs, p.1 = id ∧ p.2.1.isSome ∧ p.2.2.isSome := by
  constructor
  · rintro ⟨⟨p, hp, hpk, hpi⟩, ⟨q, hq, hqk, hqo⟩⟩
    have hpq : p = q := unique_key pairs hnd p hp q hq (hpk.trans hqk.symm)
    subst hpq
    exact ⟨p, hp, hpk, hpi, hqo⟩
  · rintro ⟨p, hp, hk, hi, ho⟩
    exact ⟨⟨p, hp, hk, hi⟩, ⟨p, hp, hk, ho⟩⟩

/-- Helper: the sorting chain permutes the case list, so membership is
unchanged. -/
theorem mem_applySortings (ss : List ZipEntriesSorting) (l : List (String × String × String))
    (a : String × String × String) : a ∈ applySortings ss l ↔ a ∈ l := by
  induction ss generalizing l with
  | nil => exact Iff.rfl
  | cons k ks ih =>
    have h1 : applySortings (k :: ks) l = applySortings ks
        (match k with
         | ZipEntriesSorting.Dictionary => sortByCmp (fun a b => dictCmp a.1 b.1) l
         | ZipEntriesSorting.Number => sortByCmp (fun a b => numberCmp a.1 b.1) l) := rfl
    rw [h1, ih]
    cases k <;> exact (List.perm_insertionSort _ l).mem_iff

/-- Helper: appending on the left of a string is injective. -/
theorem string_append_left_cancel (a b c : String) (h : a ++ b = a ++ c) : b = c := by
  have hd : a.data ++ b.data = a.data ++ c.data := by
    rw [← String.data_append, ← String.data_append, h]
  have hbc := List.append_cancel_left hd
  cases b
  cases c
  exact congrArg String.mk hbc

/-- Helper: characterization of the both-sides filter of `ZipEntries::load`
(lines 435-443). -/
theorem mem_zip_semi (pairs : List (String × Option String × Option String))
    (t : String × String × String) :
    t ∈ (pairs.filterMap fun p =>
        match p with
        | (name, some input, some output) => some (name, input, output)
        | _ => none) ↔
      (t.1, some t.2.1, some t.2.2) ∈ pairs := by
  rw [List.mem_filterMap]
  constructor
  · rintro ⟨p, hp, hfp⟩
    obtain ⟨n, i?, o?⟩ := p
    rcases i? with _ | i <;> rcases o? with _ | o
    · simp at hfp
    · simp at hfp
    · simp at hfp
    · injection hfp with hfp
      subst hfp
      exact hp
  · intro hp
    exact ⟨(t.1, some t.2.1, some t.2.2), hp, rfl⟩

/-- C4: for every archive and entry group, when mining succeeds a case is
emitted for an identifier if and only if some member's name captures that
identifier under the input rule and some member's name captures it under the
output rule (content recorded on both sides after the scan); an identifier
matched on only one side yields no case; and every emitted case is named
`"{archiveFilename}:{identifier}"` for an identifier recorded on both
sides. -/
theorem c4_zip_pairing :
    ∀ (e : ZipEntries) (members : List (String × String)) (filename : String)
      (timelimit : Option Nat) (om : Match) (cases : List SimpleCase),
      ZipEntries.load e members filename timelimit om = Except.ok cases →
      (∀ id, (∃ c ∈ cases, c.name = filename ++ ":" ++ id) ↔
        ((∃ m ∈ members, capturedId e.input m.1 = some id) ∧
         (∃ m ∈ members, capturedId e.output m.1 = some id))) ∧
      (∀ c ∈ cases, ∃ id, c.name = filename ++ ":" ++ id ∧
        (∃ m ∈ members, capturedId e.input m.1 = some id) ∧
        (∃ m ∈ members, capturedId e.output m.1 = some id)) := by
  intro e members filename timelimit om cases h
  unfold ZipEntries.load at h
  rcases hfold : List.foldlM (scanMember e) [] members with e' | pairs
  · rw [hfold] at h
    simp at h
  · rw [hfold, except_bind_ok, except_pure] at h
    injection h with h
    subst h
    obtain ⟨hnd, hsides⟩ := scan_fold_sides e members [] pairs hfold (by simp)
    have hsideIn : ∀ id, sideIn pairs id ↔ ∃ m ∈ members, capturedId e.input m.1 = some id := by
      intro id
      rw [(hsides id).1]
      simp [sideIn_nil]
    have hsideOut : ∀ id, sideOut pairs id ↔ ∃ m ∈ members, capturedId e.output m.1 = some id := by
      intro id
      rw [(hsides id).2]
      simp [sideOut_nil]
    constructor
    · intro id
      constructor
      · rintro ⟨c, hc, hname⟩
        obtain ⟨t, ht, hmk⟩ := List.mem_map.mp hc
        have htP := (mem_applySortings e.sort _ t).mp ht
        have hentry := (mem_zip_semi pairs t).mp htP
        have htname : c.name = filename ++ ":" ++ t.1 := by rw [← hmk]; rfl
        have hid : t.1 = id := by
          apply string_append_left_cancel (filename ++ ":")
          rw [← htname, hname]
        subst hid
        refine ⟨(hsideIn t.1).mp ⟨_, hentry, rfl, rfl⟩, (hsideOut t.1).mp ⟨_, hentry, rfl, rfl⟩⟩
      · rintro ⟨hcin, hcout⟩
        obtain ⟨p, hp, hk, hi, ho⟩ := (both_entry pairs hnd id).mp
          ⟨(hsideIn id).mpr hcin, (hsideOut id).mpr hcout⟩
        obtain ⟨i, hi'⟩ := Option.isSome_iff_exists.mp hi
        obtain ⟨o, ho'⟩ := Option.isSome_iff_exists.mp ho
        have hpt : p = ((id, i, o).1, some (id, i, o).2.1, some (id, i, o).2.2) := by
          obtain ⟨n, i?, o?⟩ := p
          simp only at hk hi' ho'
          rw [hk, hi', ho']
        have htP : (id, i, o) ∈ (pairs.filterMap fun p =>
            match p with
            | (name, some input, some output) => some (name, input, output)
            | _ => none) := (mem_zip_semi pairs (id, i, o)).mpr (hpt ▸ hp)
        have hts := (mem_applySortings e.sort _ (id, i, o)).mpr htP
        exact ⟨_, List.mem_map_of_mem _ hts, rfl⟩
    · intro c hc
      obtain ⟨t, ht, hmk⟩ := List.mem_map.mp hc
      have htP := (mem_applySortings e.sort _ t).mp ht
      have hentry := (mem_zip_semi pairs t).mp htP
      refine ⟨t.1, by rw [← hmk]; rfl, ?_, ?_⟩
      · exact (hsideIn t.1).mp ⟨_, hentry, rfl, rfl⟩
      · exact (hsideOut t.1).mp ⟨_, hentry, rfl, rfl⟩

/-- Witness for C4 at a concrete archive: pairs for identifiers 9, 10, 1
are all matched on both sides, mining succeeds, and the pairing
characterization holds for the three emitted cases. -/
theorem c4_zip_pairing_witness :
    ZipEntries.load zipSampleEntries zipSampleMembers "arch.zip" none Match.Exact =
      Except.ok zipSampleCases ∧
    (∀ id, (∃ c ∈ zipSampleCases, c.name = "arch.zip" ++ ":" ++ id) ↔
      ((∃ m ∈ zipSampleMembers, capturedId zipSampleEntries.input m.1 = some id) ∧
       (∃ m ∈ zipSampleMembers, capturedId zipSampleEntries.output m.1 = some id))) := by
  have hload : ZipEntries.load zipSampleEntries zipSampleMembers "arch.zip" none Match.Exact =
      Except.ok zipSampleCases := by rfl
  exact ⟨hload, (c4_zip_pairing zipSampleEntries zipSampleMembers "arch.zip" none Match.Exact
    zipSampleCases hload).1⟩

/-- Helper: the order induced by the `Number` comparator is transitive. -/
theorem numberCmp_le_trans (s1 s2 s3 : String)
    (h1 : numberCmp s1 s2 ≠ Ordering.gt) (h2 : numberCmp s2 s3 ≠ Ordering.gt) :
    numberCmp s1 s3 ≠ Ordering.gt := by
  unfold numberCmp at h1 h2 ⊢
  rcases hp1 : parseUsize s1 with _ | n1 <;> rcases hp2 : parseUsize s2 with _ | n2 <;>
    rcases hp3 : parseUsize s3 with _ | n3 <;>
    simp [hp1, hp2, hp3, Nat.compare_eq_gt] at h1 h2 ⊢ <;> omega

/-- Helper: the order induced by the `Number` comparator is total. -/
theorem numberCmp_le_total (s1 s2 : String) :
    numberCmp s1 s2 ≠ Ordering.gt ∨ numberCmp s2 s1 ≠ Ordering.gt := by
  unfold numberCmp
  rcases hp1 : parseUsize s1 with _ | n1 <;> rcases hp2 : parseUsize s2 with _ | n2 <;>
    simp [hp1, hp2, Nat.compare_eq_gt] <;> omega

/-- Helper: the order induced by the `Dictionary` comparator is
transitive. -/
theorem dictCmp_le_trans (s1 s2 s3 : String)
    (h1 : dictCmp s1 s2 ≠ Ordering.gt) (h2 : dictCmp s2 s3 ≠ Ordering.gt) :
    dictCmp s1 s3 ≠ Ordering.gt := by
  unfold dictCmp at h1 h2 ⊢
  rw [Ne, compare_gt_iff_gt, not_lt] at h1 h2 ⊢
  exact le_trans h1 h2

/-- Helper: the order induced by the `Dictionary` comparator is total. -/
theorem dictCmp_le_total (s1 s2 : String) :
    dictCmp s1 s2 ≠ Ordering.gt ∨ dictCmp s2 s1 ≠ Ordering.gt := by
  unfold dictCmp
  rw [Ne, compare_gt_iff_gt, not_lt, Ne, compare_gt_iff_gt, not_lt]
  exact le_total s1 s2

/-- Helper: when the sort list ends in `Number`, the emitted order is sorted
by the `Number` comparator — the last listed key dominates. -/
theorem applySortings_number_last (ks : List ZipEntriesSorting)
    (cs : List (String × String × String)) :
    List.Sorted (fun a b : String × String × String => numberCmp a.1 b.1 ≠ Ordering.gt)
      (applySortings (ks ++ [ZipEntriesSorting.Number]) cs) := by
  have hfold : applySortings (ks ++ [ZipEntriesSorting.Number]) cs =
      sortByCmp (fun a b : String × String × String => numberCmp a.1 b.1)
        (applySortings ks cs) := by
    unfold applySortings
    rw [List.foldl_append]
    rfl
  rw [hfold]
  unfold sortByCmp
  haveI : IsTrans (String × String × String)
      (fun a b => numberCmp a.1 b.1 ≠ Ordering.gt) :=
    ⟨fun a b c h1 h2 => numberCmp_le_trans a.1 b.1 c.1 h1 h2⟩
  haveI : IsTotal (String × String × String)
      (fun a b => numberCmp a.1 b.1 ≠ Ordering.gt) :=
    ⟨fun a b => numberCmp_le_total a.1 b.1⟩
  exact List.sorted_insertionSort _ _

/-- Helper: when the sort list ends in `Dictionary`, the emitted order is
sorted by the `Dictionary` comparator. -/
theorem applySortings_dictionary_last (ks : List ZipEntriesSorting)
    (cs : List (String × String × String)) :
    List.Sorted (fun a b : String × String × String => dictCmp a.1 b.1 ≠ Ordering.gt)
      (applySortings (ks ++ [ZipEntriesSorting.Dictionary]) cs) := by
  have hfold : applySortings (ks ++ [ZipEntriesSorting.Dictionary]) cs =
      sortByCmp (fun a b : String × String × String => dictCmp a.1 b.1)
        (applySortings ks cs) := by
    unfold applySortings
    rw [List.foldl_append]
    rfl
  rw [hfold]
  unfold sortByCmp
  haveI : IsTrans (String × String × String)
      (fun a b => dictCmp a.1 b.1 ≠ Ordering.gt) :=
    ⟨fun a b c h1 h2 => dictCmp_le_trans a.1 b.1 c.1 h1 h2⟩
  haveI : IsTotal (String × String × String)
      (fun a b => dictCmp a.1 b.1 ≠ Ordering.gt) :=
    ⟨fun a b => dictCmp_le_total a.1 b.1⟩
  exact List.sorted_insertionSort _ _

/-- C5: the sort keys are applied as successive full stable sorts in listed
order (the chain equation), so the last listed key dominates (the result is
sorted by the last key's comparator, for both key kinds); under `Number`,
identifiers parsing as unsigned integers order by numeric value and precede
all non-parsing identifiers, and two non-parsing identifiers compare equal;
in particular the concrete archive with pairs for identifiers 9, 10, 1
sorted by `[Number]` yields cases in the order 1, 9, 10. -/
theorem c5_zip_sorting :
    (ZipEntries.load zipSampleEntries zipSampleMembers "arch.zip" none Match.Exact =
        Except.ok zipSampleCases ∧
      zipSampleCases.map SimpleCase.name = ["arch.zip:1", "arch.zip:9", "arch.zip:10"]) ∧
    ((∀ s1 s2 n1 n2, parseUsize s1 = some n1 → parseUsize s2 = some n2 →
        numberCmp s1 s2 = compare n1 n2) ∧
      (∀ s1 s2 n1, parseUsize s1 = some n1 → parseUsize s2 = none →
        numberCmp s1 s2 = Ordering.lt) ∧
      (∀ s1 s2, parseUsize s1 = none → parseUsize s2 = none →
        numberCmp s1 s2 = Ordering.eq)) ∧
    (∀ k ks cs, applySortings (k :: ks) cs = applySortings ks (sortOneKey k cs)) ∧
    (∀ ks cs,
      List.Sorted (fun a b : String × String × String => numberCmp a.1 b.1 ≠ Ordering.gt)
        (applySortings (ks ++ [ZipEntriesSorting.Number]) cs)) ∧
    (∀ ks cs,
      List.Sorted (fun a b : String × String × String => dictCmp a.1 b.1 ≠ Ordering.gt)
        (applySortings (ks ++ [ZipEntriesSorting.Dictionary]) cs)) := by
  refine ⟨⟨rfl, rfl⟩, ⟨?_, ?_, ?_⟩, fun k ks cs => rfl,
    applySortings_number_last, applySortings_dictionary_last⟩
  · intro s1 s2 n1 n2 h1 h2
    unfold numberCmp
    rw [h1, h2]
  · intro s1 s2 n1 h1 h2
    unfold numberCmp
    rw [h1, h2]
  · intro s1 s2 h1 h2
    unfold numberCmp
    rw [h1, h2]

/-- Witness for C5: `"9"` and `"10"` parse numerically, so the `Number`
comparator orders them by value, per the theorem. -/
theorem c5_zip_sorting_witness :
    parseUsize "9" = some 9 ∧ parseUsize "10" = some 10 ∧
    numberCmp "9" "10" = compare 9 10 := by
  refine ⟨rfl, rfl, ?_⟩
  exact c5_zip_sorting.2.1.1 "9" "10" 9 10 rfl rfl

end Snowchains
